import Mathlib

/-!
Verification of the CysAccessibility plugin
(`gromacs/analysis/plugins/CysAccessibility.py`).

The development shallowly embeds the worker class `_CysAccessibility`:
its constructor (`initWorker`), the index builder (`make_index_cys`),
the distance job runner (`run_g_dist_cys`), and the result aggregator
(`analyze_cys`).  External collaborators (the `make_ndx` index tool, the
`g_dist` distance tool, the `bzip2` compression filter, the filesystem
and the `mindist.Mindist` helper) are modelled as explicit state and
event traces; the residue cutoff is carried as a rational number, which
is faithful because the code only stores and forwards it.
-/

namespace CysAccessibility

/-! ### A model of Python dictionaries as association lists -/

/-- Lookup in an association list (Python `d[k]` returning `none` on a
`KeyError`). -/
def dlookup {α β : Type} [DecidableEq α] : List (α × β) → α → Option β
  | [], _ => none
  | (k, v) :: rest, k' => if k' = k then some v else dlookup rest k'

/-- Insertion into an association list with Python-dict semantics: an
existing key keeps its position and gets the new value, a fresh key is
appended. -/
def dinsert {α β : Type} [DecidableEq α] : List (α × β) → α → β → List (α × β)
  | [], k, v => [(k, v)]
  | (k', v') :: rest, k, v =>
    if k = k' then (k, v) :: rest else (k', v') :: dinsert rest k v

/-- The keys of an association list. -/
def dkeys {α β : Type} (d : List (α × β)) : List α := d.map Prod.fst

/-- Python `dict(pairs)`: fold the pairs into an empty dictionary. -/
def dictOfPairs {α β : Type} [DecidableEq α] (ps : List (α × β)) : List (α × β) :=
  ps.foldl (fun d q => dinsert d q.1 q.2) []

/-! ### Decimal rendering, modelling Python's `"%d" % n` -/

/-- The character for a decimal digit. -/
def digitChar (d : Nat) : Char := Char.ofNat (48 + d)

/-- Little-endian decimal digits of a natural number, with explicit fuel
so that the definition is structurally recursive. -/
def natDigitsGo : Nat → Nat → List Nat
  | 0, _ => []
  | fuel + 1, n => if n < 10 then [n] else n % 10 :: natDigitsGo fuel (n / 10)

/-- Little-endian decimal digits of a natural number. -/
def natDigits (n : Nat) : List Nat := natDigitsGo (n + 1) n

/-- The character list of the decimal rendering of a natural number. -/
def natDecChars (n : Nat) : List Char := (natDigits n).reverse.map digitChar

/-- The character list of the decimal rendering of an integer, as
printed by Python's `%d` conversion. -/
def intDecChars : Int → List Char
  | .ofNat n => natDecChars n
  | .negSucc m => '-' :: natDecChars (m + 1)

/-- Decimal rendering of an integer (Python `"%d" % i`). -/
def intDec (i : Int) : String := String.mk (intDecChars i)

/-- Decimal rendering of a natural number (Python `"%d" % n`). -/
def natDec (n : Nat) : String := String.mk ((natDecChars n))

/-! ### The configuration (`self.parameters` of `_CysAccessibility`) -/

/-- Modelled from the spec: the base class helper `plugindir` (not part
of this module's source) places plugin files under
`<root>/accessibility/<name>`, per the persisted state layout of the
specification. -/
def plugindir (root : String) (name : String) : String :=
  root ++ "/accessibility/" ++ name

/-- Output filename for one cysteine residue:
`plugindir('Cys%d_OW_dist.txt.bz2' % resid)`. -/
def cysFilename (root : String) (resid : Int) : String :=
  plugindir root ("Cys" ++ intDec resid ++ "_OW_dist.txt.bz2")

/-- Canonical group label `'Cys%(resid)d'` for one residue. -/
def cysLabel (resid : Int) : String := "Cys" ++ intDec resid

/-- The `self.parameters` record set up by `_CysAccessibility.__init__`. -/
structure Parameters where
  cysteines : List Int
  cutoff : Rat
  ndx : String
  filenames : List (Int × String)
  figname : String
deriving DecidableEq

/-- The error message of `__init__` when the `cysteines` keyword is
missing or not coercible to a sequence of integers. -/
def errCysteines : String :=
  "Keyword argument cysteines MUST be set to sequence of resids."

/-- Python `map(int, cysteines)`: succeeds only when every element is
integer-coercible (an element that is not coercible is modelled as
`none`). -/
def mapIntAll : List (Option Int) → Option (List Int)
  | [] => some []
  | none :: _ => none
  | some n :: rest => (mapIntAll rest).map (n :: ·)

/-- `_CysAccessibility.__init__`: pop `cysteines` (default `None`) and
`cys_cutoff` (default `1.0`), coerce the residue ids to integers
(raising `ValueError` on failure), sort them ascending, and derive the
index path, the per-residue output filename dictionary and the figure
name. -/
def initWorker (root : String) (cysteines : Option (List (Option Int)))
    (cys_cutoff : Option Rat) : Except String Parameters :=
  match cysteines with
  | none => .error errCysteines
  | some raw =>
    match mapIntAll raw with
    | none => .error errCysteines
    | some resids =>
      let sorted := resids.insertionSort (· ≤ ·)
      .ok { cysteines := sorted
            cutoff := cys_cutoff.getD 1
            ndx := plugindir root "cys.ndx"
            filenames := dictOfPairs (sorted.map (fun r => (r, cysFilename root r)))
            figname := plugindir root "mindist_S_OW" }

/-! ### The index builder (`make_index_cys`) -/

/-- The rename command `'name %(groupid)d Cys%(resid)d' % vars()` binding
split group `groupid` to the canonical label of `resid`. -/
def renameCommand (groupid : Nat) (resid : Int) : String :=
  "name " ++ natDec groupid ++ " Cys" ++ intDec resid

/-- The command sequence assembled by `make_index_cys` and fed to the
external `make_ndx` tool: the fixed preamble `commands_1`, one rename
command per configured residue (enumerated in stored order), then
`commands_2 = ['t OW', 'q']`. -/
def make_index_cys_commands (p : Parameters) : List String :=
  ["keep 0", "del 0", "r CYSH & t S", "splitres 0", "del 0"]
    ++ p.cysteines.enum.map (fun gr => renameCommand gr.1 gr.2)
    ++ ["t OW", "q"]

/-! ### The external world: filesystem, subprocesses, event traces -/

/-- Content of a file in the modelled filesystem.  `ndx` is an index
file written by the external `make_ndx` tool from a command sequence;
`emptyFile` is a file just opened with mode `'w'` (truncated, nothing
written); `bz2` is the compressed image of the bytes the distance tool
streamed to its standard output. -/
inductive FileData
  | ndx (commands : List String)
  | emptyFile
  | bz2 (raw : String)
deriving DecidableEq

/-- The filesystem: a dictionary from path to content. -/
abbrev FS := List (String × FileData)

/-- `os.path.isfile` on the modelled filesystem. -/
def fileExists (fs : FS) (name : String) : Bool := (dlookup fs name).isSome

/-- Observable external actions of the worker.  `waitBzip2` is in the
vocabulary so that waiting on the compression process is expressible; the
embedding shows where (whether) each event is emitted. -/
inductive Event
  | warnMissingNdx (ndx : String)
  | makeNdxCall (commands : List String)
  | skipNotice (resid : Int) (filename : String)
  | openOutput (filename : String)
  | launchGdist (resid : Int) (cutoff : Rat)
  | launchBzip2 (resid : Int)
  | waitGdist (resid : Int)
  | waitBzip2 (resid : Int)
  | closeOutput (filename : String)
deriving DecidableEq

/-- Behaviour of the external processes for one run: whether the
`g_dist` launch and the `bzip2` launch succeed for a given residue, the
exit code of `g_dist`, and the bytes `g_dist` writes to its standard
output. -/
structure Env where
  gdistLaunchOk : Int → Bool
  bzipLaunchOk : Int → Bool
  gdistExit : Int → Int
  gdistOut : Int → String

/-- `make_index_cys` as a filesystem action: invoke the external
`make_ndx` tool, which writes the index file at `parameters.ndx` from
the assembled command sequence. -/
def make_index_cys (p : Parameters) (fs : FS) : FS × List Event :=
  (dinsert fs p.ndx (.ndx (make_index_cys_commands p)),
   [.makeNdxCall (make_index_cys_commands p)])

/-- One iteration of the residue loop of `run_g_dist_cys`: look up the
output filename (a missing key would be a `KeyError`, modelled as the
exceptional result), skip with a notice when the file already exists,
otherwise open the file for writing (truncating it), launch `g_dist`,
launch the `bzip2` compressor on its output, and wait for `g_dist` via
`communicate()`; the `finally` block closes the output file on every
path.  A failed launch propagates as an exception (`Except.error`),
carrying the filesystem and the events so far. -/
def run_one (env : Env) (p : Parameters) (cutoff : Rat) (resid : Int)
    (fs : FS) : Except (FS × List Event) (FS × List Event) :=
  match dlookup p.filenames resid with
  | none => .error (fs, [])
  | some filename =>
    if fileExists fs filename then
      .ok (fs, [.skipNotice resid filename])
    else
      let fs1 := dinsert fs filename .emptyFile
      if env.gdistLaunchOk resid then
        if env.bzipLaunchOk resid then
          .ok (dinsert fs1 filename (.bz2 (env.gdistOut resid)),
               [.openOutput filename, .launchGdist resid cutoff,
                .launchBzip2 resid, .waitGdist resid, .closeOutput filename])
        else
          .error (fs1, [.openOutput filename, .launchGdist resid cutoff,
                        .closeOutput filename])
      else
        .error (fs1, [.openOutput filename, .closeOutput filename])

/-- The residue loop of `run_g_dist_cys`, processing the stored residue
list in order; an exception aborts the remaining iterations. -/
def run_loop (env : Env) (p : Parameters) (cutoff : Rat) :
    List Int → FS → Except (FS × List Event) (FS × List Event)
  | [], fs => .ok (fs, [])
  | r :: rs, fs =>
    match run_one env p cutoff r fs with
    | .ok (fs1, ev1) =>
      match run_loop env p cutoff rs fs1 with
      | .ok (fs2, ev2) => .ok (fs2, ev1 ++ ev2)
      | .error (fs2, ev2) => .error (fs2, ev1 ++ ev2)
    | .error (fs1, ev1) => .error (fs1, ev1)

/-- Outcome of a `run_g_dist_cys` call: the worker's parameters (the
Python object state after the call), the filesystem, and the trace of
external actions.  The same data is carried on the exceptional path. -/
structure RunResult where
  params : Parameters
  fs : FS
  trace : List Event
deriving DecidableEq

/-- The parameter update at the top of `run_g_dist_cys`: an explicitly
supplied cutoff is recorded into the parameters (`self.parameters.cutoff
= cutoff`), otherwise the stored cutoff is used. -/
def paramsAfter (p : Parameters) : Option Rat → Parameters
  | none => p
  | some c => { p with cutoff := c }

/-- The index-file precondition check of `run_g_dist_cys`: when the
index file is missing, warn and run `make_index_cys` before the residue
loop. -/
def ndxPhase (p : Parameters) (fs : FS) : FS × List Event :=
  if fileExists fs p.ndx then (fs, [])
  else
    let me := make_index_cys p fs
    (me.1, Event.warnMissingNdx p.ndx :: me.2)

/-- `run_g_dist_cys`: record an explicitly supplied cutoff into the
parameters (otherwise use the stored one), build the index file first
when it is missing (after a warning), then run the residue loop. -/
def run_g_dist_cys (env : Env) (p : Parameters) (cutoffArg : Option Rat)
    (fs : FS) : Except RunResult RunResult :=
  let p1 := paramsAfter p cutoffArg
  let s1 := ndxPhase p1 fs
  match run_loop env p1 p1.cutoff p1.cysteines s1.1 with
  | .ok (fs2, ev2) => .ok ⟨p1, fs2, s1.2 ++ ev2⟩
  | .error (fs2, ev2) => .error ⟨p1, fs2, s1.2 ++ ev2⟩

/-- The parameters component of a run outcome, on either path. -/
def paramsOf : Except RunResult RunResult → Parameters
  | .ok r => r.params
  | .error r => r.params

/-- The filesystem component of a run outcome, on either path. -/
def fsOf : Except RunResult RunResult → FS
  | .ok r => r.fs
  | .error r => r.fs

/-- The event trace of a run outcome, on either path. -/
def traceOf : Except RunResult RunResult → List Event
  | .ok r => r.trace
  | .error r => r.trace

/-! ### The result aggregator (`analyze_cys`) -/

/-- Modelled from the spec: the opaque analysis object returned by the
external histogram helper `mindist.Mindist`, determined by the result
file path and the cutoff handed to it. -/
structure Mindist where
  filename : String
  cutoff : Rat
deriving DecidableEq

/-- `_mindist`: look up the residue's result file and hand it, together
with the stored cutoff, to the histogram helper (a missing dictionary
key would be a `KeyError`, modelled as `none`). -/
def mindistFor (p : Parameters) (resid : Int) : Option Mindist :=
  (dlookup p.filenames resid).map (fun fn => { filename := fn, cutoff := p.cutoff })

/-- The loop of `analyze_cys`, inserting one labelled result per stored
residue into the result mapping.  Modelled from the spec: the
`AttributeDict` result container (not part of this module's source) is
an insertion-ordered mapping. -/
def analyze_cys_go (p : Parameters) :
    List Int → List (String × Mindist) → Option (List (String × Mindist))
  | [], acc => some acc
  | r :: rs, acc =>
    match mindistFor p r with
    | none => none
    | some m => analyze_cys_go p rs (dinsert acc (cysLabel r) m)

/-- `analyze_cys`: build the result mapping, keyed by canonical label,
by iterating the stored residue list. -/
def analyze_cys (p : Parameters) : Option (List (String × Mindist)) :=
  analyze_cys_go p p.cysteines []

/-! ### Derived definitions used by the development -/

/-- Value of a little-endian digit list. -/
def digitsVal : List Nat → Nat
  | [] => 0
  | d :: ds => d + 10 * digitsVal ds

/-- The event list of a loop-level outcome, on either path. -/
def evOf : Except (FS × List Event) (FS × List Event) → List Event
  | .ok x => x.2
  | .error x => x.2

/-- Events that can be emitted inside the residue loop: everything
except the index-related events and the never-emitted compressor wait. -/
def loopEvent : Event → Prop
  | .warnMissingNdx _ => False
  | .makeNdxCall _ => False
  | .waitBzip2 _ => False
  | _ => True

/-- The rename commands for a residue list, starting at a given group
id: specification view of the `enumerate`-driven loop of
`make_index_cys`. -/
def renamesFor (start : Nat) : List Int → List String
  | [] => []
  | r :: rs => renameCommand start r :: renamesFor (start + 1) rs

/-! ### Concrete fixtures -/

/-- An environment in which every launch succeeds, every tool exits
with code `0`, and `g_dist` writes `"DATA"`. -/
def envAllOk : Env :=
  { gdistLaunchOk := fun _ => true, bzipLaunchOk := fun _ => true,
    gdistExit := fun _ => 0, gdistOut := fun _ => "DATA" }

/-- An environment in which every launch succeeds but `g_dist` exits
with the non-zero code `1`. -/
def envExitOne : Env :=
  { gdistLaunchOk := fun _ => true, bzipLaunchOk := fun _ => true,
    gdistExit := fun _ => 1, gdistOut := fun _ => "DATA" }

/-- An environment in which the `g_dist` launch fails for residue `1`
and everything else succeeds. -/
def envFailG1 : Env :=
  { gdistLaunchOk := fun r => if r = 1 then false else true,
    bzipLaunchOk := fun _ => true,
    gdistExit := fun _ => 0, gdistOut := fun _ => "DATA" }

/-- The configuration built from `cysteines=[1]` with default cutoff. -/
def pOne : Parameters :=
  { cysteines := [1], cutoff := 1, ndx := plugindir "r" "cys.ndx",
    filenames := [(1, cysFilename "r" 1)],
    figname := plugindir "r" "mindist_S_OW" }

/-- The configuration built from `cysteines=[1, 2]` with default
cutoff. -/
def pTwo : Parameters :=
  { cysteines := [1, 2], cutoff := 1, ndx := plugindir "r" "cys.ndx",
    filenames := [(1, cysFilename "r" 1), (2, cysFilename "r" 2)],
    figname := plugindir "r" "mindist_S_OW" }

/-- The configuration built from `cysteines=[10, 5]` with default
cutoff. -/
def pA : Parameters :=
  { cysteines := [5, 10], cutoff := 1, ndx := plugindir "r" "cys.ndx",
    filenames := [(5, cysFilename "r" 5), (10, cysFilename "r" 10)],
    figname := plugindir "r" "mindist_S_OW" }

/-- The configuration built from `cysteines=[10, 5, 42]` (the spec's
scenario) with default cutoff. -/
def pScenario : Parameters :=
  { cysteines := [5, 10, 42], cutoff := 1, ndx := plugindir "r" "cys.ndx",
    filenames := [(5, cysFilename "r" 5), (10, cysFilename "r" 10),
                  (42, cysFilename "r" 42)],
    figname := plugindir "r" "mindist_S_OW" }

/-- The configuration built from `cysteines=[10, 5, 5]` (duplicate
residue identifier). -/
def pDup : Parameters :=
  { cysteines := [5, 5, 10], cutoff := 1, ndx := plugindir "r" "cys.ndx",
    filenames := [(5, cysFilename "r" 5), (10, cysFilename "r" 10)],
    figname := plugindir "r" "mindist_S_OW" }

/-- A filesystem holding only the index file. -/
def fsNdxOnly : FS := [(plugindir "r" "cys.ndx", FileData.ndx [])]

/-- A filesystem holding the index file and residue 1's output file. -/
def fsOneDone : FS :=
  [(plugindir "r" "cys.ndx", FileData.ndx []),
   (cysFilename "r" 1, FileData.bz2 "DATA")]

/-- A filesystem holding the index file and the output files of
residues 5 and 10. -/
def fsADone : FS :=
  [(plugindir "r" "cys.ndx", FileData.ndx []),
   (cysFilename "r" 5, FileData.bz2 "DATA"),
   (cysFilename "r" 10, FileData.bz2 "DATA")]

/-! ### Dictionary lemmas -/

theorem dlookup_dinsert_self {α β : Type} [DecidableEq α]
    (d : List (α × β)) (k : α) (v : β) :
    dlookup (dinsert d k v) k = some v := by
  induction d with
  | nil => simp [dinsert, dlookup]
  | cons q rest ih =>
    by_cases h : k = q.1
    · simp [dinsert, h, dlookup]
    · simp [dinsert, h, dlookup, ih]

theorem dlookup_dinsert_ne {α β : Type} [DecidableEq α]
    (d : List (α × β)) (k k' : α) (v : β) (h : k' ≠ k) :
    dlookup (dinsert d k v) k' = dlookup d k' := by
  induction d with
  | nil => simp [dinsert, dlookup, h]
  | cons q rest ih =>
    by_cases hq : k = q.1
    · subst hq
      simp [dinsert, dlookup, h]
    · by_cases hk' : k' = q.1
      · simp [dinsert, hq, dlookup, hk']
      · simp [dinsert, hq, dlookup, hk', ih]

theorem dlookup_eq_none_iff {α β : Type} [DecidableEq α]
    (d : List (α × β)) (k : α) :
    dlookup d k = none ↔ k ∉ dkeys d := by
  induction d with
  | nil => simp [dlookup, dkeys]
  | cons q rest ih =>
    by_cases h : k = q.1
    · simp [dlookup, h, dkeys]
    · simp [dlookup, h, dkeys, ih]

theorem dlookup_isSome_iff {α β : Type} [DecidableEq α]
    (d : List (α × β)) (k : α) :
    (dlookup d k).isSome = true ↔ k ∈ dkeys d := by
  rw [Option.isSome_iff_ne_none]
  exact (not_iff_not.mpr (dlookup_eq_none_iff d k)).trans not_not

theorem dinsert_of_not_mem {α β : Type} [DecidableEq α]
    {d : List (α × β)} {k : α} (v : β) (h : k ∉ dkeys d) :
    dinsert d k v = d ++ [(k, v)] := by
  induction d with
  | nil => simp [dinsert]
  | cons q rest ih =>
    simp only [dkeys, List.map_cons, List.mem_cons, not_or] at h
    simp [dinsert, h.1, ih h.2]

theorem mem_dkeys_dinsert {α β : Type} [DecidableEq α]
    (d : List (α × β)) (k k' : α) (v : β) :
    k' ∈ dkeys (dinsert d k v) ↔ k' ∈ dkeys d ∨ k' = k := by
  by_cases h : k' = k
  · subst h
    have hs : (dlookup (dinsert d k' v) k').isSome = true := by
      rw [dlookup_dinsert_self]; rfl
    rw [dlookup_isSome_iff] at hs
    simp [hs]
  · rw [← dlookup_isSome_iff, dlookup_dinsert_ne d k k' v h, dlookup_isSome_iff]
    simp [h]

theorem dkeys_dinsert_of_mem {α β : Type} [DecidableEq α]
    (d : List (α × β)) (k : α) (v : β) :
    k ∈ dkeys d → dkeys (dinsert d k v) = dkeys d := by
  induction d with
  | nil => intro h; simp [dkeys] at h
  | cons q rest ih =>
    intro h
    by_cases hq : k = q.1
    · simp [dinsert, hq, dkeys]
    · have h' : k ∈ dkeys rest := by
        simp only [dkeys, List.map_cons, List.mem_cons] at h
        rcases h with h | h
        · exact absurd h hq
        · exact h
      have hrec := ih h'
      simp only [dinsert, if_neg hq, dkeys, List.map_cons] at hrec ⊢
      rw [hrec]

theorem nodup_dkeys_dinsert {α β : Type} [DecidableEq α]
    (d : List (α × β)) (k : α) (v : β) (h : (dkeys d).Nodup) :
    (dkeys (dinsert d k v)).Nodup := by
  by_cases hk : k ∈ dkeys d
  · rw [dkeys_dinsert_of_mem d k v hk]; exact h
  · rw [dinsert_of_not_mem v hk]
    simp only [dkeys, List.map_append, List.map_cons, List.map_nil]
    simp only [dkeys] at h hk
    exact List.Nodup.append h (List.nodup_singleton k) (by simpa using hk)

/-! ### `dict(pairs)` lemmas (folds of `dinsert`) -/

theorem dlookup_foldl_dinsert {α β : Type} [DecidableEq α] (f : α → β) :
    ∀ (ps : List (α × β)) (d : List (α × β)) (k : α),
      (∀ q ∈ ps, q.2 = f q.1) →
      dlookup (ps.foldl (fun d q => dinsert d q.1 q.2) d) k =
        if k ∈ ps.map Prod.fst then some (f k) else dlookup d k := by
  intro ps
  induction ps with
  | nil => intro d k _; simp
  | cons q rest ih =>
    intro d k hval
    have hq : q.2 = f q.1 := hval q (List.mem_cons_self q rest)
    have hrest : ∀ q' ∈ rest, q'.2 = f q'.1 :=
      fun q' hq' => hval q' (List.mem_cons_of_mem q hq')
    simp only [List.foldl_cons]
    rw [ih (dinsert d q.1 q.2) k hrest]
    by_cases hmem : k ∈ rest.map Prod.fst
    · simp [hmem]
    · by_cases hk : k = q.1
      · subst hk
        simp [hmem, dlookup_dinsert_self, hq]
      · simp [hmem, hk, dlookup_dinsert_ne d q.1 k q.2 hk]

theorem mem_dkeys_foldl_dinsert {α β : Type} [DecidableEq α] :
    ∀ (ps : List (α × β)) (d : List (α × β)) (k : α),
      k ∈ dkeys (ps.foldl (fun d q => dinsert d q.1 q.2) d) ↔
        k ∈ dkeys d ∨ k ∈ ps.map Prod.fst := by
  intro ps
  induction ps with
  | nil => intro d k; simp
  | cons q rest ih =>
    intro d k
    simp only [List.foldl_cons, List.map_cons, List.mem_cons]
    rw [ih, mem_dkeys_dinsert]
    tauto

theorem nodup_dkeys_foldl_dinsert {α β : Type} [DecidableEq α] :
    ∀ (ps : List (α × β)) (d : List (α × β)),
      (dkeys d).Nodup →
      (dkeys (ps.foldl (fun d q => dinsert d q.1 q.2) d)).Nodup := by
  intro ps
  induction ps with
  | nil => intro d h; simpa using h
  | cons q rest ih =>
    intro d h
    exact ih _ (nodup_dkeys_dinsert d q.1 q.2 h)

theorem dlookup_dictOfPairs {α β : Type} [DecidableEq α] (f : α → β)
    (l : List α) (k : α) :
    dlookup (dictOfPairs (l.map (fun a => (a, f a)))) k =
      if k ∈ l then some (f k) else none := by
  have h := dlookup_foldl_dinsert f (l.map (fun a => (a, f a))) [] k
    (by intro q hq; rcases List.mem_map.mp hq with ⟨a, _, rfl⟩; rfl)
  rw [dictOfPairs] at *
  rw [h]
  simp [List.map_map]
  rfl

theorem mem_dkeys_dictOfPairs {α β : Type} [DecidableEq α]
    (ps : List (α × β)) (k : α) :
    k ∈ dkeys (dictOfPairs ps) ↔ k ∈ ps.map Prod.fst := by
  rw [dictOfPairs, mem_dkeys_foldl_dinsert]
  simp [dkeys]

theorem nodup_dkeys_dictOfPairs {α β : Type} [DecidableEq α]
    (ps : List (α × β)) : (dkeys (dictOfPairs ps)).Nodup :=
  nodup_dkeys_foldl_dinsert ps [] (by simp [dkeys])

/-! ### Injectivity of the decimal rendering -/


theorem digitsVal_natDigitsGo : ∀ (fuel n : Nat), n < fuel →
    digitsVal (natDigitsGo fuel n) = n := by
  intro fuel
  induction fuel with
  | zero => intro n h; omega
  | succ fuel ih =>
    intro n h
    by_cases h10 : n < 10
    · simp [natDigitsGo, h10, digitsVal]
    · have hdiv : n / 10 < fuel := by
        have : n / 10 < n := Nat.div_lt_self (by omega) (by omega)
        omega
      simp only [natDigitsGo, if_neg h10, digitsVal, ih (n / 10) hdiv]
      omega

theorem natDigits_inj {m n : Nat} (h : natDigits m = natDigits n) : m = n := by
  have hm := digitsVal_natDigitsGo (m + 1) m (Nat.lt_succ_self m)
  have hn := digitsVal_natDigitsGo (n + 1) n (Nat.lt_succ_self n)
  rw [natDigits] at h
  rw [natDigits] at h
  rw [← hm, ← hn, h]

theorem mem_natDigitsGo_lt : ∀ (fuel n d : Nat), d ∈ natDigitsGo fuel n → d < 10 := by
  intro fuel
  induction fuel with
  | zero => intro n d h; simp [natDigitsGo] at h
  | succ fuel ih =>
    intro n d h
    by_cases h10 : n < 10
    · simp [natDigitsGo, h10] at h
      omega
    · simp only [natDigitsGo, if_neg h10, List.mem_cons] at h
      rcases h with h | h
      · omega
      · exact ih (n / 10) d h

theorem natDigitsGo_ne_nil (fuel n : Nat) (h : 0 < fuel) :
    natDigitsGo fuel n ≠ [] := by
  cases fuel with
  | zero => omega
  | succ fuel =>
    by_cases h10 : n < 10 <;> simp [natDigitsGo, h10]

theorem natDigits_ne_nil (n : Nat) : natDigits n ≠ [] :=
  natDigitsGo_ne_nil (n + 1) n (Nat.succ_pos n)

theorem digitChar_toNat : ∀ d < 10, (digitChar d).toNat = 48 + d := by decide

theorem digitChar_inj_lt {d e : Nat} (hd : d < 10) (he : e < 10)
    (h : digitChar d = digitChar e) : d = e := by
  have h1 := digitChar_toNat d hd
  have h2 := digitChar_toNat e he
  rw [h, h2] at h1
  omega

theorem map_digitChar_inj : ∀ (l1 l2 : List Nat),
    (∀ d ∈ l1, d < 10) → (∀ d ∈ l2, d < 10) →
    l1.map digitChar = l2.map digitChar → l1 = l2 := by
  intro l1
  induction l1 with
  | nil =>
    intro l2 _ _ h
    cases l2 with
    | nil => rfl
    | cons e es => simp at h
  | cons d ds ih =>
    intro l2 h1 h2 h
    cases l2 with
    | nil => simp at h
    | cons e es =>
      simp only [List.map_cons, List.cons.injEq] at h
      have hd : d = e :=
        digitChar_inj_lt (h1 d (List.mem_cons_self d ds))
          (h2 e (List.mem_cons_self e es)) h.1
      have ht : ds = es :=
        ih es (fun x hx => h1 x (List.mem_cons_of_mem d hx))
          (fun x hx => h2 x (List.mem_cons_of_mem e hx)) h.2
      rw [hd, ht]

theorem natDecChars_inj {m n : Nat} (h : natDecChars m = natDecChars n) :
    m = n := by
  have hrev :=
    map_digitChar_inj (natDigits m).reverse (natDigits n).reverse
      (fun d hd => mem_natDigitsGo_lt (m + 1) m d (List.mem_reverse.mp hd))
      (fun d hd => mem_natDigitsGo_lt (n + 1) n d (List.mem_reverse.mp hd)) h
  exact natDigits_inj (List.reverse_injective hrev)

theorem natDecChars_head (n : Nat) :
    ∃ d l, d < 10 ∧ natDecChars n = digitChar d :: l := by
  rcases hrev : (natDigits n).reverse with _ | ⟨d, l⟩
  · exact absurd (by simpa using congrArg List.reverse hrev) (natDigits_ne_nil n)
  · refine ⟨d, l.map digitChar, ?_, ?_⟩
    · have : d ∈ natDigits n := by
        rw [← List.mem_reverse, hrev]
        exact List.mem_cons_self d l
      exact mem_natDigitsGo_lt (n + 1) n d this
    · rw [natDecChars, hrev, List.map_cons]

theorem digitChar_ne_minus {d : Nat} (hd : d < 10) : digitChar d ≠ '-' := by
  intro h
  have h1 := digitChar_toNat d hd
  rw [h] at h1
  have : ('-').toNat = 45 := by decide
  omega

theorem intDecChars_inj : ∀ {i j : Int}, intDecChars i = intDecChars j → i = j := by
  intro i j h
  cases i with
  | ofNat m =>
    cases j with
    | ofNat n =>
      rw [intDecChars, intDecChars] at h
      exact congrArg Int.ofNat (natDecChars_inj h)
    | negSucc n =>
      rcases natDecChars_head m with ⟨d, l, hd, he⟩
      rw [intDecChars, intDecChars, he] at h
      exact absurd (List.head_eq_of_cons_eq h) (digitChar_ne_minus hd)
  | negSucc m =>
    cases j with
    | ofNat n =>
      rcases natDecChars_head n with ⟨d, l, hd, he⟩
      rw [intDecChars, intDecChars, he] at h
      exact absurd (List.head_eq_of_cons_eq h).symm (digitChar_ne_minus hd)
    | negSucc n =>
      rw [intDecChars, intDecChars] at h
      have hsucc := natDecChars_inj (List.tail_eq_of_cons_eq h)
      have hmn : m = n := by omega
      rw [hmn]

theorem string_data_append (a b : String) : (a ++ b).data = a.data ++ b.data := by
  cases a
  cases b
  rfl

theorem intDec_inj {i j : Int} (h : intDec i = intDec j) : i = j := by
  apply intDecChars_inj
  have := congrArg String.data h
  simpa [intDec] using this

theorem cysLabel_inj {i j : Int} (h : cysLabel i = cysLabel j) : i = j := by
  apply intDec_inj
  have hd := congrArg String.data h
  rw [cysLabel, cysLabel, string_data_append, string_data_append] at hd
  have : (intDec i).data = (intDec j).data := List.append_cancel_left hd
  cases hi : intDec i
  cases hj : intDec j
  rw [hi, hj] at this
  simp only at this
  rw [this]

/-! ### Construction lemmas -/

theorem mapIntAll_map_some (xs : List Int) : mapIntAll (xs.map some) = some xs := by
  induction xs with
  | nil => rfl
  | cons x xs ih => simp [mapIntAll, ih]

theorem mapIntAll_eq_none_iff (raw : List (Option Int)) :
    mapIntAll raw = none ↔ none ∈ raw := by
  induction raw with
  | nil => simp [mapIntAll]
  | cons x xs ih =>
    cases x with
    | none =>
      constructor
      · intro _
        exact List.mem_cons_self _ _
      · intro _
        rfl
    | some n =>
      simp only [mapIntAll, List.mem_cons]
      cases h : mapIntAll xs with
      | none => simp [ih.mp h]
      | some l =>
        have : none ∉ xs := fun hc => by
          rw [ih.mpr hc] at h
          exact Option.noConfusion h
        simp [this]

theorem mapIntAll_eq_some {raw : List (Option Int)} {rs : List Int}
    (h : mapIntAll raw = some rs) : raw = rs.map some := by
  induction raw generalizing rs with
  | nil =>
    rw [mapIntAll] at h
    cases h
    rfl
  | cons x xs ih =>
    cases x with
    | none => exact Option.noConfusion h
    | some n =>
      rw [mapIntAll] at h
      cases hx : mapIntAll xs with
      | none => rw [hx] at h; exact Option.noConfusion h
      | some l =>
        rw [hx] at h
        simp only [Option.map_some'] at h
        cases h
        simp [ih hx]

theorem initWorker_ok {root : String} {cys : Option (List (Option Int))}
    {c : Option Rat} {p : Parameters} (h : initWorker root cys c = .ok p) :
    ∃ raw resids, cys = some raw ∧ mapIntAll raw = some resids ∧
      p.cysteines = resids.insertionSort (· ≤ ·) ∧
      p.cutoff = c.getD 1 ∧
      p.ndx = plugindir root "cys.ndx" ∧
      p.filenames = dictOfPairs (p.cysteines.map (fun r => (r, cysFilename root r))) ∧
      p.figname = plugindir root "mindist_S_OW" := by
  cases cys with
  | none => exact Except.noConfusion h
  | some raw =>
    cases hm : mapIntAll raw with
    | none =>
      rw [initWorker, hm] at h
      exact Except.noConfusion h
    | some resids =>
      rw [initWorker, hm] at h
      simp only [Except.ok.injEq] at h
      refine ⟨raw, resids, rfl, hm, ?_, ?_, ?_, ?_, ?_⟩ <;> rw [← h]

theorem initWorker_cysteines_sorted {root : String}
    {cys : Option (List (Option Int))} {c : Option Rat} {p : Parameters}
    (h : initWorker root cys c = .ok p) :
    p.cysteines.Sorted (· ≤ ·) := by
  obtain ⟨raw, resids, -, -, hcys, -⟩ := initWorker_ok h
  rw [hcys]
  exact List.sorted_insertionSort (· ≤ ·) resids

theorem initWorker_cysteines_perm {root : String} {xs : List Int}
    {c : Option Rat} {p : Parameters}
    (h : initWorker root (some (xs.map some)) c = .ok p) :
    p.cysteines.Perm xs := by
  obtain ⟨raw, resids, hraw, hm, hcys, -⟩ := initWorker_ok h
  have hre : raw = xs.map some := by
    injection hraw with e
    exact e.symm
  rw [hre, mapIntAll_map_some] at hm
  have hrx : resids = xs := by
    injection hm with e
    exact e.symm
  rw [hcys, hrx]
  exact List.perm_insertionSort (· ≤ ·) xs

theorem dlookup_filenames {root : String} {cys : Option (List (Option Int))}
    {c : Option Rat} {p : Parameters} (h : initWorker root cys c = .ok p)
    {r : Int} (hr : r ∈ p.cysteines) :
    dlookup p.filenames r = some (cysFilename root r) := by
  obtain ⟨raw, resids, -, -, -, -, -, hfn, -⟩ := initWorker_ok h
  rw [hfn, dlookup_dictOfPairs (cysFilename root) p.cysteines r, if_pos hr]

theorem dkeys_filenames_iff {root : String} {cys : Option (List (Option Int))}
    {c : Option Rat} {p : Parameters} (h : initWorker root cys c = .ok p)
    (r : Int) : r ∈ dkeys p.filenames ↔ r ∈ p.cysteines := by
  obtain ⟨raw, resids, -, -, -, -, -, hfn, -⟩ := initWorker_ok h
  rw [hfn, mem_dkeys_dictOfPairs]
  simp [List.map_map]

theorem nodup_dkeys_filenames {root : String} {cys : Option (List (Option Int))}
    {c : Option Rat} {p : Parameters} (h : initWorker root cys c = .ok p) :
    (dkeys p.filenames).Nodup := by
  obtain ⟨raw, resids, -, -, -, -, -, hfn, -⟩ := initWorker_ok h
  rw [hfn]
  exact nodup_dkeys_dictOfPairs _

/-! ### Run lemmas -/


theorem paramsAfter_cysteines (p : Parameters) (c : Option Rat) :
    (paramsAfter p c).cysteines = p.cysteines := by
  cases c <;> rfl

theorem paramsAfter_ndx (p : Parameters) (c : Option Rat) :
    (paramsAfter p c).ndx = p.ndx := by
  cases c <;> rfl

theorem paramsAfter_filenames (p : Parameters) (c : Option Rat) :
    (paramsAfter p c).filenames = p.filenames := by
  cases c <;> rfl

theorem paramsAfter_figname (p : Parameters) (c : Option Rat) :
    (paramsAfter p c).figname = p.figname := by
  cases c <;> rfl

theorem paramsAfter_cutoff (p : Parameters) (c : Option Rat) :
    (paramsAfter p c).cutoff = c.getD p.cutoff := by
  cases c <;> rfl

theorem run_g_dist_cys_params (env : Env) (p : Parameters) (c : Option Rat)
    (fs : FS) :
    paramsOf (run_g_dist_cys env p c fs) = paramsAfter p c := by
  rw [run_g_dist_cys]
  cases hl : run_loop env (paramsAfter p c) (paramsAfter p c).cutoff
      (paramsAfter p c).cysteines (ndxPhase (paramsAfter p c) fs).1 with
  | ok x => rcases x with ⟨fs2, ev2⟩; simp [hl, paramsOf]
  | error x => rcases x with ⟨fs2, ev2⟩; simp [hl, paramsOf]

theorem run_one_keyError (env : Env) (p : Parameters) (c : Rat) (r : Int)
    (fs : FS) (hl : dlookup p.filenames r = none) :
    run_one env p c r fs = .error (fs, []) := by
  simp only [run_one, hl]

theorem run_one_skip (env : Env) (p : Parameters) (c : Rat) (r : Int)
    (fs : FS) (fn : String) (hl : dlookup p.filenames r = some fn)
    (hex : fileExists fs fn = true) :
    run_one env p c r fs = .ok (fs, [Event.skipNotice r fn]) := by
  simp only [run_one, hl, if_pos hex]

theorem run_one_full (env : Env) (p : Parameters) (c : Rat) (r : Int)
    (fs : FS) (fn : String) (hl : dlookup p.filenames r = some fn)
    (hex : fileExists fs fn = false) (hg : env.gdistLaunchOk r = true)
    (hb : env.bzipLaunchOk r = true) :
    run_one env p c r fs =
      .ok (dinsert (dinsert fs fn .emptyFile) fn (.bz2 (env.gdistOut r)),
           [Event.openOutput fn, Event.launchGdist r c, Event.launchBzip2 r,
            Event.waitGdist r, Event.closeOutput fn]) := by
  simp only [run_one, hl, hex, Bool.false_eq_true, if_false, hg, if_true, hb]

theorem run_one_gdistFail (env : Env) (p : Parameters) (c : Rat) (r : Int)
    (fs : FS) (fn : String) (hl : dlookup p.filenames r = some fn)
    (hex : fileExists fs fn = false) (hg : env.gdistLaunchOk r = false) :
    run_one env p c r fs =
      .error (dinsert fs fn .emptyFile,
              [Event.openOutput fn, Event.closeOutput fn]) := by
  simp only [run_one, hl, hex, Bool.false_eq_true, if_false, hg]

theorem run_one_bzipFail (env : Env) (p : Parameters) (c : Rat) (r : Int)
    (fs : FS) (fn : String) (hl : dlookup p.filenames r = some fn)
    (hex : fileExists fs fn = false) (hg : env.gdistLaunchOk r = true)
    (hb : env.bzipLaunchOk r = false) :
    run_one env p c r fs =
      .error (dinsert fs fn .emptyFile,
              [Event.openOutput fn, Event.launchGdist r c,
               Event.closeOutput fn]) := by
  simp only [run_one, hl, hex, Bool.false_eq_true, if_false, hg, if_true, hb]

theorem run_loop_cons_ok (env : Env) (p : Parameters) (c : Rat) (r : Int)
    (rest : List Int) (fs fs1 : FS) (ev1 : List Event)
    (h1 : run_one env p c r fs = .ok (fs1, ev1)) :
    run_loop env p c (r :: rest) fs =
      match run_loop env p c rest fs1 with
      | .ok (fs2, ev2) => .ok (fs2, ev1 ++ ev2)
      | .error (fs2, ev2) => .error (fs2, ev1 ++ ev2) := by
  simp only [run_loop, h1]

theorem run_loop_cons_error (env : Env) (p : Parameters) (c : Rat) (r : Int)
    (rest : List Int) (fs fs1 : FS) (ev1 : List Event)
    (h1 : run_one env p c r fs = .error (fs1, ev1)) :
    run_loop env p c (r :: rest) fs = .error (fs1, ev1) := by
  simp only [run_loop, h1]

theorem run_one_events (env : Env) (p : Parameters) (c : Rat) (r : Int)
    (fs : FS) : ∀ e ∈ evOf (run_one env p c r fs), loopEvent e := by
  intro e he
  rcases hl : dlookup p.filenames r with _ | fn
  · rw [run_one_keyError env p c r fs hl] at he
    simp [evOf] at he
  · by_cases hex : fileExists fs fn = true
    · rw [run_one_skip env p c r fs fn hl hex] at he
      simp only [evOf, List.mem_singleton] at he
      subst he; trivial
    · rw [Bool.not_eq_true] at hex
      by_cases hg : env.gdistLaunchOk r = true
      · by_cases hb : env.bzipLaunchOk r = true
        · rw [run_one_full env p c r fs fn hl hex hg hb] at he
          simp [evOf] at he
          rcases he with rfl | rfl | rfl | rfl | rfl <;> trivial
        · rw [Bool.not_eq_true] at hb
          rw [run_one_bzipFail env p c r fs fn hl hex hg hb] at he
          simp [evOf] at he
          rcases he with rfl | rfl | rfl <;> trivial
      · rw [Bool.not_eq_true] at hg
        rw [run_one_gdistFail env p c r fs fn hl hex hg] at he
        simp [evOf] at he
        rcases he with rfl | rfl <;> trivial

theorem run_loop_events (env : Env) (p : Parameters) (c : Rat) :
    ∀ (rs : List Int) (fs : FS),
      ∀ e ∈ evOf (run_loop env p c rs fs), loopEvent e := by
  intro rs
  induction rs with
  | nil => intro fs e he; simp [run_loop, evOf] at he
  | cons r rest ih =>
    intro fs e he
    cases h1 : run_one env p c r fs with
    | ok x =>
      rcases x with ⟨fs1, ev1⟩
      rw [run_loop_cons_ok env p c r rest fs fs1 ev1 h1] at he
      cases h2 : run_loop env p c rest fs1 with
      | ok y =>
        rcases y with ⟨fs2, ev2⟩
        rw [h2] at he
        simp only [evOf, List.mem_append] at he
        rcases he with he | he
        · exact run_one_events env p c r fs e (by rw [h1]; exact he)
        · exact ih fs1 e (by rw [h2]; exact he)
      | error y =>
        rcases y with ⟨fs2, ev2⟩
        rw [h2] at he
        simp only [evOf, List.mem_append] at he
        rcases he with he | he
        · exact run_one_events env p c r fs e (by rw [h1]; exact he)
        · exact ih fs1 e (by rw [h2]; exact he)
    | error x =>
      rcases x with ⟨fs1, ev1⟩
      rw [run_loop_cons_error env p c r rest fs fs1 ev1 h1] at he
      exact run_one_events env p c r fs e (by rw [h1]; exact he)

theorem run_loop_all_skip (env : Env) (p : Parameters) (c : Rat)
    (g : Int → String) :
    ∀ (rs : List Int) (fs : FS),
      (∀ r ∈ rs, dlookup p.filenames r = some (g r) ∧ fileExists fs (g r) = true) →
      run_loop env p c rs fs =
        .ok (fs, rs.map (fun r => Event.skipNotice r (g r))) := by
  intro rs
  induction rs with
  | nil => intro fs _; rfl
  | cons r rest ih =>
    intro fs h
    have hr := h r (List.mem_cons_self r rest)
    have hrest : ∀ x ∈ rest, dlookup p.filenames x = some (g x) ∧
        fileExists fs (g x) = true :=
      fun x hx => h x (List.mem_cons_of_mem r hx)
    rw [run_loop_cons_ok env p c r rest fs fs [Event.skipNotice r (g r)]
      (run_one_skip env p c r fs (g r) hr.1 hr.2), ih fs hrest]
    rfl

theorem fileExists_dinsert_self (fs : FS) (k : String) (v : FileData) :
    fileExists (dinsert fs k v) k = true := by
  simp [fileExists, dlookup_dinsert_self]

theorem fileExists_dinsert_mono (fs : FS) (k n : String) (v : FileData)
    (h : fileExists fs n = true) : fileExists (dinsert fs k v) n = true := by
  by_cases hk : n = k
  · subst hk; exact fileExists_dinsert_self fs n v
  · rw [fileExists, dlookup_dinsert_ne fs k n v hk]
    exact h

theorem run_one_launch_ok (env : Env) (p : Parameters) (c : Rat) (r : Int)
    (fs : FS) (fn : String) (hg : env.gdistLaunchOk r = true)
    (hb : env.bzipLaunchOk r = true)
    (hl : dlookup p.filenames r = some fn) :
    ∃ fs' ev, run_one env p c r fs = .ok (fs', ev)
      ∧ (∀ n, fileExists fs n = true → fileExists fs' n = true)
      ∧ fileExists fs' fn = true := by
  by_cases hex : fileExists fs fn = true
  · exact ⟨fs, _, run_one_skip env p c r fs fn hl hex, fun n hn => hn, hex⟩
  · rw [Bool.not_eq_true] at hex
    refine ⟨_, _, run_one_full env p c r fs fn hl hex hg hb, ?_, ?_⟩
    · intro n hn
      exact fileExists_dinsert_mono _ fn n _ (fileExists_dinsert_mono fs fn n _ hn)
    · exact fileExists_dinsert_self _ fn _

theorem run_loop_launch_ok (env : Env) (p : Parameters) (c : Rat)
    (g : Int → String) :
    ∀ (rs : List Int) (fs : FS),
      (∀ r ∈ rs, env.gdistLaunchOk r = true ∧ env.bzipLaunchOk r = true ∧
        dlookup p.filenames r = some (g r)) →
      ∃ fs' ev, run_loop env p c rs fs = .ok (fs', ev)
        ∧ (∀ n, fileExists fs n = true → fileExists fs' n = true)
        ∧ (∀ r ∈ rs, fileExists fs' (g r) = true) := by
  intro rs
  induction rs with
  | nil =>
    intro fs _
    exact ⟨fs, [], rfl, fun n hn => hn, by simp⟩
  | cons r rest ih =>
    intro fs h
    have hr := h r (List.mem_cons_self r rest)
    obtain ⟨fs1, ev1, h1, mono1, hex1⟩ :=
      run_one_launch_ok env p c r fs (g r) hr.1 hr.2.1 hr.2.2
    obtain ⟨fs2, ev2, h2, mono2, hex2⟩ :=
      ih fs1 (fun x hx => h x (List.mem_cons_of_mem r hx))
    refine ⟨fs2, ev1 ++ ev2, ?_, fun n hn => mono2 n (mono1 n hn), ?_⟩
    · rw [run_loop_cons_ok env p c r rest fs fs1 ev1 h1, h2]
    · intro x hx
      rcases List.mem_cons.mp hx with rfl | hx
      · exact mono2 (g x) hex1
      · exact hex2 x hx

theorem run_one_exit_irrel (env : Env) (g : Int → Int) (p : Parameters)
    (c : Rat) (r : Int) (fs : FS) :
    run_one { env with gdistExit := g } p c r fs = run_one env p c r fs := rfl

theorem run_loop_exit_irrel (env : Env) (g : Int → Int) (p : Parameters)
    (c : Rat) : ∀ (rs : List Int) (fs : FS),
    run_loop { env with gdistExit := g } p c rs fs = run_loop env p c rs fs := by
  intro rs
  induction rs with
  | nil => intro fs; rfl
  | cons r rest ih =>
    intro fs
    cases h1 : run_one env p c r fs with
    | ok x =>
      rcases x with ⟨fs1, ev1⟩
      rw [run_loop_cons_ok { env with gdistExit := g } p c r rest fs fs1 ev1
          (by rw [run_one_exit_irrel]; exact h1),
        run_loop_cons_ok env p c r rest fs fs1 ev1 h1, ih fs1]
    | error x =>
      rcases x with ⟨fs1, ev1⟩
      rw [run_loop_cons_error { env with gdistExit := g } p c r rest fs fs1 ev1
          (by rw [run_one_exit_irrel]; exact h1),
        run_loop_cons_error env p c r rest fs fs1 ev1 h1]

theorem run_g_dist_cys_exit_irrel (env : Env) (g : Int → Int)
    (p : Parameters) (c : Option Rat) (fs : FS) :
    run_g_dist_cys { env with gdistExit := g } p c fs =
      run_g_dist_cys env p c fs := by
  rw [run_g_dist_cys, run_g_dist_cys, run_loop_exit_irrel]

theorem run_trace_split (env : Env) (p : Parameters) (c : Option Rat)
    (fs : FS) :
    traceOf (run_g_dist_cys env p c fs) =
      (ndxPhase (paramsAfter p c) fs).2 ++
        evOf (run_loop env (paramsAfter p c) (paramsAfter p c).cutoff
          (paramsAfter p c).cysteines (ndxPhase (paramsAfter p c) fs).1) := by
  rw [run_g_dist_cys]
  cases hl : run_loop env (paramsAfter p c) (paramsAfter p c).cutoff
      (paramsAfter p c).cysteines (ndxPhase (paramsAfter p c) fs).1 with
  | ok x => rcases x with ⟨fs2, ev2⟩; simp [traceOf, evOf]
  | error x => rcases x with ⟨fs2, ev2⟩; simp [traceOf, evOf]

/-! ### Rename-command block of the index builder -/


theorem enumFrom_map_rename : ∀ (n : Nat) (l : List Int),
    (List.enumFrom n l).map (fun gr => renameCommand gr.1 gr.2) =
      renamesFor n l := by
  intro n l
  induction l generalizing n with
  | nil => rfl
  | cons r rs ih => simp [List.enumFrom, renamesFor, ih]

theorem make_index_cys_commands_eq (p : Parameters) :
    make_index_cys_commands p =
      ["keep 0", "del 0", "r CYSH & t S", "splitres 0", "del 0"]
        ++ renamesFor 0 p.cysteines ++ ["t OW", "q"] := by
  rw [make_index_cys_commands, List.enum, enumFrom_map_rename]

theorem renamesFor_get : ∀ (l : List Int) (n k : Nat) (hk : k < l.length),
    (renamesFor n l).get? k = some (renameCommand (n + k) (l.get ⟨k, hk⟩)) := by
  intro l
  induction l with
  | nil => intro n k hk; simp at hk
  | cons r rs ih =>
    intro n k hk
    cases k with
    | zero => simp [renamesFor, List.get]
    | succ k =>
      have hk' : k < rs.length := Nat.lt_of_succ_lt_succ hk
      have := ih (n + 1) k hk'
      simp only [renamesFor, List.get?_cons_succ, List.get]
      rw [this, Nat.add_assoc, Nat.add_comm 1 k]

/-! ### Index-phase lemmas -/

theorem ndxPhase_present (p : Parameters) (fs : FS)
    (h : fileExists fs p.ndx = true) : ndxPhase p fs = (fs, []) := by
  rw [ndxPhase, if_pos h]

theorem ndxPhase_missing (p : Parameters) (fs : FS)
    (h : fileExists fs p.ndx = false) :
    ndxPhase p fs =
      (dinsert fs p.ndx (.ndx (make_index_cys_commands p)),
       [Event.warnMissingNdx p.ndx,
        Event.makeNdxCall (make_index_cys_commands p)]) := by
  rw [ndxPhase, if_neg (by simp [h])]
  rfl

theorem run_g_dist_cys_of_loop_ok (env : Env) (p : Parameters)
    (c : Option Rat) (fs fs2 : FS) (ev2 : List Event)
    (h : run_loop env (paramsAfter p c) (paramsAfter p c).cutoff
      (paramsAfter p c).cysteines (ndxPhase (paramsAfter p c) fs).1 =
        .ok (fs2, ev2)) :
    run_g_dist_cys env p c fs =
      .ok ⟨paramsAfter p c, fs2, (ndxPhase (paramsAfter p c) fs).2 ++ ev2⟩ := by
  simp only [run_g_dist_cys, h]

theorem run_g_dist_cys_of_loop_error (env : Env) (p : Parameters)
    (c : Option Rat) (fs fs2 : FS) (ev2 : List Event)
    (h : run_loop env (paramsAfter p c) (paramsAfter p c).cutoff
      (paramsAfter p c).cysteines (ndxPhase (paramsAfter p c) fs).1 =
        .error (fs2, ev2)) :
    run_g_dist_cys env p c fs =
      .error ⟨paramsAfter p c, fs2, (ndxPhase (paramsAfter p c) fs).2 ++ ev2⟩ := by
  simp only [run_g_dist_cys, h]

/-! ### Aggregator lemmas -/

theorem cysLabel_injective : Function.Injective cysLabel :=
  fun _ _ h => cysLabel_inj h

theorem analyze_go_fresh (p : Parameters) (g : Int → String) :
    ∀ (rs : List Int) (acc : List (String × Mindist)),
      (∀ r ∈ rs, dlookup p.filenames r = some (g r)) →
      (∀ r ∈ rs, cysLabel r ∉ dkeys acc) →
      (rs.map cysLabel).Nodup →
      analyze_cys_go p rs acc =
        some (acc ++ rs.map (fun r =>
          (cysLabel r, { filename := g r, cutoff := p.cutoff }))) := by
  intro rs
  induction rs with
  | nil => intro acc _ _ _; simp [analyze_cys_go]
  | cons r rest ih =>
    intro acc hlook hfresh hnd
    have hr : dlookup p.filenames r = some (g r) :=
      hlook r (List.mem_cons_self r rest)
    have hm : mindistFor p r =
        some { filename := g r, cutoff := p.cutoff } := by
      rw [mindistFor, hr]
      rfl
    have hacc : dinsert acc (cysLabel r)
        { filename := g r, cutoff := p.cutoff } =
        acc ++ [(cysLabel r, { filename := g r, cutoff := p.cutoff })] :=
      dinsert_of_not_mem _ (hfresh r (List.mem_cons_self r rest))
    have hnd' : (rest.map cysLabel).Nodup := (List.nodup_cons.mp hnd).2
    have hnotin : cysLabel r ∉ rest.map cysLabel := (List.nodup_cons.mp hnd).1
    have hfresh' : ∀ x ∈ rest,
        cysLabel x ∉ dkeys (acc ++
          [(cysLabel r, ({ filename := g r, cutoff := p.cutoff } : Mindist))]) := by
      intro x hx hmem
      simp only [dkeys, List.map_append, List.map_cons, List.map_nil,
        List.mem_append, List.mem_singleton] at hmem
      rcases hmem with hmem | hmem
      · exact hfresh x (List.mem_cons_of_mem r hx) hmem
      · exact hnotin (hmem ▸ List.mem_map_of_mem cysLabel hx)
    have := ih (acc ++ [(cysLabel r, { filename := g r, cutoff := p.cutoff })])
      (fun x hx => hlook x (List.mem_cons_of_mem r hx)) hfresh' hnd'
    simp only [analyze_cys_go, hm, hacc, this, List.map_cons]
    rw [List.append_assoc]
    rfl

theorem analyze_go_total (p : Parameters) :
    ∀ (rs : List Int) (acc : List (String × Mindist)),
      (∀ r ∈ rs, (dlookup p.filenames r).isSome = true) →
      ∃ m, analyze_cys_go p rs acc = some m
        ∧ (∀ k, k ∈ dkeys m ↔ k ∈ dkeys acc ∨ k ∈ rs.map cysLabel)
        ∧ ((dkeys acc).Nodup → (dkeys m).Nodup) := by
  intro rs
  induction rs with
  | nil =>
    intro acc _
    exact ⟨acc, rfl, fun k => by simp, fun h => h⟩
  | cons r rest ih =>
    intro acc hlook
    obtain ⟨fn, hfn⟩ :=
      Option.isSome_iff_exists.mp (hlook r (List.mem_cons_self r rest))
    have hm : mindistFor p r = some { filename := fn, cutoff := p.cutoff } := by
      rw [mindistFor, hfn]
      rfl
    obtain ⟨m, hgo, hkeys, hnd⟩ :=
      ih (dinsert acc (cysLabel r) { filename := fn, cutoff := p.cutoff })
        (fun x hx => hlook x (List.mem_cons_of_mem r hx))
    refine ⟨m, by simp only [analyze_cys_go, hm, hgo], ?_, ?_⟩
    · intro k
      rw [hkeys k, mem_dkeys_dinsert]
      simp only [List.map_cons, List.mem_cons]
      tauto
    · intro hacc
      exact hnd (nodup_dkeys_dinsert acc (cysLabel r) _ hacc)


/-! ### Claim theorems -/

/-- C1: for every valid configuration, whatever the order of the
user-supplied residue-identifier sequence, the stored residue sequence
is an ascending-sorted permutation of the input, and every subsequent
`run_g_dist_cys` call (the only operation that touches the parameter
object) leaves the stored residue sequence unchanged — index building,
job running and aggregation all iterate exactly this sorted list. -/
theorem C1_residues_sorted_and_preserved :
    ∀ (root : String) (xs : List Int) (c : Option Rat) (p : Parameters),
      initWorker root (some (xs.map some)) c = .ok p →
      p.cysteines.Sorted (· ≤ ·) ∧ p.cysteines.Perm xs ∧
      ∀ (env : Env) (cArg : Option Rat) (fs : FS),
        (paramsOf (run_g_dist_cys env p cArg fs)).cysteines = p.cysteines := by
  intro root xs c p h
  refine ⟨initWorker_cysteines_sorted h, initWorker_cysteines_perm h, ?_⟩
  intro env cArg fs
  rw [run_g_dist_cys_params, paramsAfter_cysteines]

/-- Witness for C1 at the concrete input `cysteines=[10, 5]`. -/
theorem C1_residues_sorted_and_preserved_witness :
    pA.cysteines.Sorted (· ≤ ·) ∧ pA.cysteines.Perm [10, 5] ∧
      (paramsOf (run_g_dist_cys envAllOk pA none [])).cysteines = pA.cysteines := by
  have h := C1_residues_sorted_and_preserved "r" [10, 5] none pA rfl
  exact ⟨h.1, h.2.1, h.2.2 envAllOk none []⟩

/-- C2: the index builder emits exactly the fixed preamble
(`keep 0`, `del 0`, `r CYSH & t S`, `splitres 0`, `del 0`), then one
rename command per configured residue in ascending residue-identifier
order binding the k-th split group to label `Cys<resid>`, then the
water-oxygen selection `t OW` and the terminator `q`; in particular for
configured residues `[10, 5, 42]` the rename commands bind, in order,
`Cys5`, `Cys10`, `Cys42`. -/
theorem C2_index_builder_command_sequence :
    (∀ (root : String) (cys : Option (List (Option Int))) (c : Option Rat)
      (p : Parameters), initWorker root cys c = .ok p →
      make_index_cys_commands p =
        ["keep 0", "del 0", "r CYSH & t S", "splitres 0", "del 0"]
          ++ renamesFor 0 p.cysteines ++ ["t OW", "q"]
      ∧ p.cysteines.Sorted (· ≤ ·)
      ∧ ∀ (k : Nat) (hk : k < p.cysteines.length),
          (renamesFor 0 p.cysteines).get? k =
            some (renameCommand k (p.cysteines.get ⟨k, hk⟩)))
    ∧ (initWorker "r" (some [some 10, some 5, some 42]) none = .ok pScenario
       ∧ pScenario.cysteines = [5, 10, 42]
       ∧ make_index_cys_commands pScenario =
          ["keep 0", "del 0", "r CYSH & t S", "splitres 0", "del 0",
           "name 0 Cys5", "name 1 Cys10", "name 2 Cys42", "t OW", "q"]) := by
  constructor
  · intro root cys c p h
    refine ⟨make_index_cys_commands_eq p, initWorker_cysteines_sorted h, ?_⟩
    intro k hk
    rw [renamesFor_get p.cysteines 0 k hk, Nat.zero_add]
  · exact ⟨rfl, rfl, rfl⟩

/-- Witness for C2 at the concrete scenario `cysteines=[10, 5, 42]`. -/
theorem C2_index_builder_command_sequence_witness :
    make_index_cys_commands pScenario =
      ["keep 0", "del 0", "r CYSH & t S", "splitres 0", "del 0"]
        ++ renamesFor 0 pScenario.cysteines ++ ["t OW", "q"]
    ∧ pScenario.cysteines.Sorted (· ≤ ·)
    ∧ (renamesFor 0 pScenario.cysteines).get? 1 =
        some (renameCommand 1 (pScenario.cysteines.get ⟨1, by decide⟩)) := by
  have h := C2_index_builder_command_sequence.1 "r"
    (some [some 10, some 5, some 42]) none pScenario rfl
  exact ⟨h.1, h.2.1, h.2.2 1 (by decide)⟩

/-- C3: when every configured residue's output file already exists and
the index file is present, `run_g_dist_cys` performs zero distance-tool
and zero compression invocations, leaves the filesystem (hence every
file's content) unchanged, and reports exactly one skip notice per
configured residue; a rerun immediately after a complete run is
therefore idempotent. -/
theorem C3_rerun_is_idempotent_skip :
    ∀ (root : String) (xs : List Int) (c : Option Rat) (p : Parameters)
      (env : Env) (fs : FS),
      initWorker root (some (xs.map some)) c = .ok p →
      fileExists fs p.ndx = true →
      (∀ r ∈ p.cysteines, fileExists fs (cysFilename root r) = true) →
      run_g_dist_cys env p none fs =
        .ok ⟨p, fs, p.cysteines.map (fun r =>
          Event.skipNotice r (cysFilename root r))⟩ := by
  intro root xs c p env fs hinit hndx hfiles
  have hskip := run_loop_all_skip env p p.cutoff (cysFilename root)
    p.cysteines fs (fun r hr => ⟨dlookup_filenames hinit hr, hfiles r hr⟩)
  have hphase : ndxPhase p fs = (fs, []) := ndxPhase_present p fs hndx
  have hloop : run_loop env (paramsAfter p none) (paramsAfter p none).cutoff
      (paramsAfter p none).cysteines (ndxPhase (paramsAfter p none) fs).1 =
        .ok (fs, p.cysteines.map (fun r =>
          Event.skipNotice r (cysFilename root r))) := by
    show run_loop env p p.cutoff p.cysteines (ndxPhase p fs).1 = _
    rw [hphase]
    exact hskip
  rw [run_g_dist_cys_of_loop_ok env p none fs _ _ hloop]
  simp only [paramsAfter]
  rw [hphase]
  rfl

/-- Witness for C3 at the concrete input `cysteines=[10, 5]` with both
output files and the index file present. -/
theorem C3_rerun_is_idempotent_skip_witness :
    run_g_dist_cys envAllOk pA none fsADone =
      .ok ⟨pA, fsADone, pA.cysteines.map (fun r =>
        Event.skipNotice r (cysFilename "r" r))⟩ :=
  C3_rerun_is_idempotent_skip "r" [10, 5] none pA envAllOk fsADone rfl rfl
    (by decide)

/-- C4 counterexample: with `cysteines=[1]`, the index file present and
the output file absent, the distance tool exits with the non-zero code
`1`, yet the run completes normally (`Except.ok`, so no Job Execution
error is raised) and the trace never contains a wait on the compression
process — refuting the claim that the runner waits for both processes
and raises an error on a non-zero exit. -/
theorem C4_counterexample :
    envExitOne.gdistExit 1 = 1
    ∧ initWorker "r" (some [some 1]) none = .ok pOne
    ∧ run_g_dist_cys envExitOne pOne none fsNdxOnly =
        .ok ⟨pOne,
             [(plugindir "r" "cys.ndx", FileData.ndx []),
              (cysFilename "r" 1, FileData.bz2 "DATA")],
             [Event.openOutput (cysFilename "r" 1),
              Event.launchGdist 1 1, Event.launchBzip2 1, Event.waitGdist 1,
              Event.closeOutput (cysFilename "r" 1)]⟩
    ∧ Event.waitBzip2 1 ∉ traceOf (run_g_dist_cys envExitOne pOne none fsNdxOnly) := by
  refine ⟨rfl, rfl, rfl, ?_⟩
  decide

/-- C4 amended: for every non-skipped residue job whose two stages
launch, the Job Runner waits for the distance-tool process (via
`communicate()`) but never for the compression process (no
`waitBzip2` event is ever emitted), and exit codes are ignored: the
whole run result is independent of the distance tool's exit codes and
no Job Execution error is raised for a non-zero exit; a launch failure
propagates as an exception instead. -/
theorem C4_wait_and_exit_code_behaviour :
    ∀ (env : Env) (p : Parameters) (cArg : Option Rat) (fs : FS)
      (g : Int → Int),
      run_g_dist_cys { env with gdistExit := g } p cArg fs =
        run_g_dist_cys env p cArg fs
      ∧ (∀ r : Int, Event.waitBzip2 r ∉ traceOf (run_g_dist_cys env p cArg fs))
      ∧ (∀ (r : Int) (fn : String) (c : Rat),
          dlookup p.filenames r = some fn → fileExists fs fn = false →
          env.gdistLaunchOk r = true → env.bzipLaunchOk r = true →
          Event.waitGdist r ∈ evOf (run_one env p c r fs)) := by
  intro env p cArg fs g
  refine ⟨run_g_dist_cys_exit_irrel env g p cArg fs, ?_, ?_⟩
  · intro r hmem
    rw [run_trace_split] at hmem
    rcases List.mem_append.mp hmem with hmem | hmem
    · by_cases hndx : fileExists fs (paramsAfter p cArg).ndx = true
      · rw [ndxPhase_present _ fs hndx] at hmem
        simp at hmem
      · rw [Bool.not_eq_true] at hndx
        rw [ndxPhase_missing _ fs hndx] at hmem
        simp at hmem
    · exact run_loop_events env (paramsAfter p cArg) (paramsAfter p cArg).cutoff
        (paramsAfter p cArg).cysteines _ (Event.waitBzip2 r) hmem
  · intro r fn c hl hex hg hb
    rw [run_one_full env p c r fs fn hl hex hg hb]
    simp [evOf]

/-- Witness for the amended C4 at a concrete input. -/
theorem C4_wait_and_exit_code_behaviour_witness :
    run_g_dist_cys { envAllOk with gdistExit := fun _ => 7 } pOne none [] =
      run_g_dist_cys envAllOk pOne none []
    ∧ Event.waitBzip2 1 ∉ traceOf (run_g_dist_cys envAllOk pOne none [])
    ∧ Event.waitGdist 1 ∈ evOf (run_one envAllOk pOne 1 1 []) := by
  have h := C4_wait_and_exit_code_behaviour envAllOk pOne none [] (fun _ => 7)
  exact ⟨h.1, h.2.1 1, h.2.2 1 (cysFilename "r" 1) 1 rfl rfl rfl rfl⟩

/-- C5 counterexample: with `cysteines=[1, 2]` and a fresh output
directory (index present, no output files), a launch failure of residue
1's distance tool aborts the whole run as an exception: residue 2 is
never attempted and its output file is not produced — refuting the
claim that one residue's distance-tool failure never prevents the
remaining residues from being attempted. -/
theorem C5_counterexample :
    initWorker "r" (some [some 1, some 2]) none = .ok pTwo
    ∧ envFailG1.gdistLaunchOk 1 = false
    ∧ run_g_dist_cys envFailG1 pTwo none fsNdxOnly =
        .error ⟨pTwo,
                [(plugindir "r" "cys.ndx", FileData.ndx []),
                 (cysFilename "r" 1, FileData.emptyFile)],
                [Event.openOutput (cysFilename "r" 1),
                 Event.closeOutput (cysFilename "r" 1)]⟩
    ∧ fileExists (fsOf (run_g_dist_cys envFailG1 pTwo none fsNdxOnly))
        (cysFilename "r" 2) = false :=
  ⟨rfl, rfl, rfl, rfl⟩

/-- C5 amended: fault isolation holds only for non-zero exits, not for
launch failures: whenever both stages launch for every configured
residue, the run completes and every configured residue's output file
exists afterwards, regardless of the tools' exit codes (a residue whose
distance tool merely exits non-zero does not prevent the others); but a
launch failure aborts the loop as shown by the counterexample. -/
theorem C5_fault_isolation_when_launches_succeed :
    ∀ (root : String) (xs : List Int) (c : Option Rat) (p : Parameters)
      (env : Env) (fs : FS),
      initWorker root (some (xs.map some)) c = .ok p →
      (∀ r ∈ p.cysteines, env.gdistLaunchOk r = true ∧
        env.bzipLaunchOk r = true) →
      ∃ res, run_g_dist_cys env p none fs = .ok res
        ∧ ∀ r ∈ p.cysteines, fileExists res.fs (cysFilename root r) = true := by
  intro root xs c p env fs hinit hlaunch
  obtain ⟨fs2, ev2, hloop, hmono, hex⟩ :=
    run_loop_launch_ok env p p.cutoff (cysFilename root) p.cysteines
      (ndxPhase p fs).1
      (fun r hr => ⟨(hlaunch r hr).1, (hlaunch r hr).2,
        dlookup_filenames hinit hr⟩)
  refine ⟨⟨p, fs2, (ndxPhase p fs).2 ++ ev2⟩, ?_, hex⟩
  exact run_g_dist_cys_of_loop_ok env p none fs fs2 ev2 hloop

/-- Witness for the amended C5 at the concrete input `cysteines=[1, 2]`
on an empty filesystem. -/
theorem C5_fault_isolation_when_launches_succeed_witness :
    ∃ res, run_g_dist_cys envAllOk pTwo none [] = .ok res
      ∧ ∀ r ∈ pTwo.cysteines, fileExists res.fs (cysFilename "r" r) = true :=
  C5_fault_isolation_when_launches_succeed "r" [1, 2] none pTwo envAllOk []
    rfl (by decide)

/-- C6: for every configuration built from distinct residue
identifiers, the Result Aggregator returns the mapping with exactly one
entry per configured residue, keyed `Cys<resid>`, in ascending
residue-identifier insertion order (the stored sorted list), each entry
being the analysis object made from that residue's result-file path and
the stored cutoff. -/
theorem C6_aggregator_mapping :
    ∀ (root : String) (xs : List Int) (c : Option Rat) (p : Parameters),
      initWorker root (some (xs.map some)) c = .ok p →
      xs.Nodup →
      analyze_cys p =
        some (p.cysteines.map (fun r =>
          (cysLabel r, { filename := cysFilename root r, cutoff := p.cutoff })))
      ∧ p.cysteines.Perm xs ∧ p.cysteines.Sorted (· ≤ ·) := by
  intro root xs c p hinit hnd
  have hperm := initWorker_cysteines_perm hinit
  have hcnd : p.cysteines.Nodup := hperm.nodup_iff.mpr hnd
  have hlnd : (p.cysteines.map cysLabel).Nodup := hcnd.map cysLabel_injective
  have := analyze_go_fresh p (cysFilename root) p.cysteines []
    (fun r hr => dlookup_filenames hinit hr)
    (fun r _ hmem => by simp [dkeys] at hmem) hlnd
  refine ⟨?_, hperm, initWorker_cysteines_sorted hinit⟩
  rw [analyze_cys, this, List.nil_append]

/-- Witness for C6 at the concrete input `cysteines=[10, 5]`. -/
theorem C6_aggregator_mapping_witness :
    analyze_cys pA =
      some (pA.cysteines.map (fun r =>
        (cysLabel r, { filename := cysFilename "r" r, cutoff := pA.cutoff })))
    ∧ pA.cysteines.Perm [10, 5] ∧ pA.cysteines.Sorted (· ≤ ·) :=
  C6_aggregator_mapping "r" [10, 5] none pA rfl (by decide)

/-- C7 counterexample: the configuration is not immutable after
construction — the job runner, invoked with an explicit cutoff of `2`
on a configuration whose stored cutoff is `1`, records the new cutoff
into the configuration (`self.parameters.cutoff = cutoff`). -/
theorem C7_counterexample :
    initWorker "r" (some [some 1]) none = .ok pOne
    ∧ pOne.cutoff = 1
    ∧ (paramsOf (run_g_dist_cys envAllOk pOne (some 2) fsOneDone)).cutoff = 2 :=
  ⟨rfl, rfl, rfl⟩

/-- C7 amended: every configuration field except the cutoff is
unchanged by any `run_g_dist_cys` call (and index building and
aggregation do not touch the configuration at all); the stored cutoff
becomes the explicitly supplied cutoff when one is passed and is
unchanged otherwise. -/
theorem C7_config_stable_except_recorded_cutoff :
    ∀ (env : Env) (p : Parameters) (cArg : Option Rat) (fs : FS),
      (paramsOf (run_g_dist_cys env p cArg fs)).cysteines = p.cysteines
      ∧ (paramsOf (run_g_dist_cys env p cArg fs)).ndx = p.ndx
      ∧ (paramsOf (run_g_dist_cys env p cArg fs)).filenames = p.filenames
      ∧ (paramsOf (run_g_dist_cys env p cArg fs)).figname = p.figname
      ∧ (paramsOf (run_g_dist_cys env p cArg fs)).cutoff = cArg.getD p.cutoff := by
  intro env p cArg fs
  rw [run_g_dist_cys_params]
  exact ⟨paramsAfter_cysteines p cArg, paramsAfter_ndx p cArg,
    paramsAfter_filenames p cArg, paramsAfter_figname p cArg,
    paramsAfter_cutoff p cArg⟩

/-- C8: when the index file is missing at the start of a job run, the
trace begins with exactly one warning followed immediately by exactly
one index-builder invocation, both before any residue processing, and
neither event recurs later; when the index file is present, no warning
and no index-builder invocation occurs at all. -/
theorem C8_index_file_autobuild_once :
    ∀ (env : Env) (p : Parameters) (cArg : Option Rat) (fs : FS),
      (fileExists fs p.ndx = true →
        (∀ cmds, Event.makeNdxCall cmds ∉
          traceOf (run_g_dist_cys env p cArg fs))
        ∧ (∀ s, Event.warnMissingNdx s ∉
          traceOf (run_g_dist_cys env p cArg fs)))
      ∧ (fileExists fs p.ndx = false →
        ∃ rest, traceOf (run_g_dist_cys env p cArg fs) =
            Event.warnMissingNdx p.ndx ::
              Event.makeNdxCall (make_index_cys_commands p) :: rest
          ∧ (∀ cmds, Event.makeNdxCall cmds ∉ rest)
          ∧ (∀ s, Event.warnMissingNdx s ∉ rest)) := by
  intro env p cArg fs
  have hcmds : make_index_cys_commands (paramsAfter p cArg) =
      make_index_cys_commands p := by
    cases cArg <;> rfl
  have hloopEv := run_loop_events env (paramsAfter p cArg)
    (paramsAfter p cArg).cutoff (paramsAfter p cArg).cysteines
    (ndxPhase (paramsAfter p cArg) fs).1
  constructor
  · intro hndx
    have hphase : ndxPhase (paramsAfter p cArg) fs = (fs, []) :=
      ndxPhase_present _ fs (by rw [paramsAfter_ndx]; exact hndx)
    constructor
    · intro cmds hmem
      rw [run_trace_split, hphase] at hmem
      rcases List.mem_append.mp hmem with hmem | hmem
      · simp at hmem
      · exact hloopEv (Event.makeNdxCall cmds) (by rw [hphase]; exact hmem)
    · intro s hmem
      rw [run_trace_split, hphase] at hmem
      rcases List.mem_append.mp hmem with hmem | hmem
      · simp at hmem
      · exact hloopEv (Event.warnMissingNdx s) (by rw [hphase]; exact hmem)
  · intro hndx
    have hphase : ndxPhase (paramsAfter p cArg) fs =
        (dinsert fs (paramsAfter p cArg).ndx
          (.ndx (make_index_cys_commands (paramsAfter p cArg))),
         [Event.warnMissingNdx (paramsAfter p cArg).ndx,
          Event.makeNdxCall (make_index_cys_commands (paramsAfter p cArg))]) :=
      ndxPhase_missing _ fs (by rw [paramsAfter_ndx]; exact hndx)
    refine ⟨evOf (run_loop env (paramsAfter p cArg) (paramsAfter p cArg).cutoff
      (paramsAfter p cArg).cysteines (ndxPhase (paramsAfter p cArg) fs).1),
      ?_, ?_, ?_⟩
    · rw [run_trace_split, hphase]
      simp [paramsAfter_ndx, hcmds]
    · intro cmds hmem
      exact hloopEv (Event.makeNdxCall cmds) hmem
    · intro s hmem
      exact hloopEv (Event.warnMissingNdx s) hmem

/-- Witness for C8: with the index file present no index build happens;
on an empty filesystem the trace starts with the warning and the single
index build. -/
theorem C8_index_file_autobuild_once_witness :
    (∀ cmds, Event.makeNdxCall cmds ∉
      traceOf (run_g_dist_cys envAllOk pOne none fsOneDone))
    ∧ ∃ rest, traceOf (run_g_dist_cys envAllOk pOne none []) =
        Event.warnMissingNdx pOne.ndx ::
          Event.makeNdxCall (make_index_cys_commands pOne) :: rest
        ∧ (∀ cmds, Event.makeNdxCall cmds ∉ rest)
        ∧ (∀ s, Event.warnMissingNdx s ∉ rest) := by
  have h1 := (C8_index_file_autobuild_once envAllOk pOne none fsOneDone).1 rfl
  have h2 := (C8_index_file_autobuild_once envAllOk pOne none []).2 rfl
  exact ⟨h1.1, h2⟩

/-- C9: construction fails (with the `ValueError` naming the
`cysteines` argument) exactly when the residue sequence is missing or
contains a non-integer-coercible element; every all-coercible sequence
is accepted with no further validation, and the cutoff defaults to `1.0`
when not supplied. -/
theorem C9_construction_validation :
    ∀ (root : String) (cys : Option (List (Option Int))) (c : Option Rat),
      ((∃ e, initWorker root cys c = .error e) ↔
        (cys = none ∨ ∃ raw, cys = some raw ∧ none ∈ raw))
      ∧ (∀ e, initWorker root cys c = .error e → e = errCysteines)
      ∧ (∀ raw, cys = some raw → none ∉ raw →
          ∃ p, initWorker root cys c = .ok p ∧ (c = none → p.cutoff = 1)) := by
  intro root cys c
  cases cys with
  | none =>
    have hiw : initWorker root none c = .error errCysteines := rfl
    refine ⟨⟨fun _ => Or.inl rfl, fun _ => ⟨errCysteines, hiw⟩⟩, ?_, ?_⟩
    · intro e he
      rw [hiw] at he
      injection he with h
      exact h.symm
    · intro raw hr
      exact Option.noConfusion hr
  | some raw =>
    cases hm : mapIntAll raw with
    | none =>
      have hmem : none ∈ raw := (mapIntAll_eq_none_iff raw).mp hm
      have hiw : initWorker root (some raw) c = .error errCysteines := by
        simp only [initWorker, hm]
      refine ⟨⟨fun _ => Or.inr ⟨raw, rfl, hmem⟩, fun _ => ⟨errCysteines, hiw⟩⟩,
        ?_, ?_⟩
      · intro e he
        rw [hiw] at he
        injection he with h
        exact h.symm
      · intro raw' hr hnone
        injection hr with hr'
        subst hr'
        exact absurd hmem hnone
    | some resids =>
      have hiw : initWorker root (some raw) c =
          .ok { cysteines := resids.insertionSort (· ≤ ·)
                cutoff := c.getD 1
                ndx := plugindir root "cys.ndx"
                filenames := dictOfPairs ((resids.insertionSort (· ≤ ·)).map
                  (fun r => (r, cysFilename root r)))
                figname := plugindir root "mindist_S_OW" } := by
        simp only [initWorker, hm]
      refine ⟨⟨?_, ?_⟩, ?_, ?_⟩
      · rintro ⟨e, he⟩
        rw [hiw] at he
        exact Except.noConfusion he
      · rintro (h | ⟨raw', hr, hmem⟩)
        · exact Option.noConfusion h
        · injection hr with hr'
          subst hr'
          have := (mapIntAll_eq_none_iff raw).mpr hmem
          rw [this] at hm
          exact Option.noConfusion hm
      · intro e he
        rw [hiw] at he
        exact Except.noConfusion he
      · intro raw' hr hnone
        refine ⟨_, hiw, ?_⟩
        intro hc
        subst hc
        rfl

/-- Witness for C9 at the concrete inputs `cysteines=[5]` (accepted,
default cutoff) with no explicit cutoff. -/
theorem C9_construction_validation_witness :
    ((∃ e, initWorker "r" (some [some 5]) none = .error e) ↔
      ((some [some 5] : Option (List (Option Int))) = none ∨
        ∃ raw, (some [some 5] : Option (List (Option Int))) = some raw ∧
          none ∈ raw))
    ∧ ∃ p, initWorker "r" (some [some 5]) none = .ok p ∧
        ((none : Option Rat) = none → p.cutoff = 1) := by
  have h := C9_construction_validation "r" (some [some 5]) none
  exact ⟨h.1, h.2.2 [some 5] rfl (by decide)⟩

/-- C10: a duplicated residue identifier survives construction (the
stored sorted sequence has the same multiplicities as the input, so the
runner iterates the duplicate more than once), while the
residue-to-filepath dictionary and the aggregator's result mapping each
have distinct keys with exactly one entry per distinct identifier. -/
theorem C10_duplicate_residues :
    ∀ (root : String) (xs : List Int) (c : Option Rat) (p : Parameters),
      initWorker root (some (xs.map some)) c = .ok p →
      (∀ v : Int, p.cysteines.count v = xs.count v)
      ∧ (dkeys p.filenames).Nodup
      ∧ (∀ r : Int, r ∈ dkeys p.filenames ↔ r ∈ xs)
      ∧ ∃ m, analyze_cys p = some m
          ∧ (dkeys m).Nodup
          ∧ (∀ r : Int, cysLabel r ∈ dkeys m ↔ r ∈ xs) := by
  intro root xs c p hinit
  have hperm := initWorker_cysteines_perm hinit
  refine ⟨fun v => hperm.count_eq v, nodup_dkeys_filenames hinit, ?_, ?_⟩
  · intro r
    rw [dkeys_filenames_iff hinit r]
    exact hperm.mem_iff
  · obtain ⟨m, hgo, hkeys, hnd⟩ := analyze_go_total p p.cysteines []
      (fun r hr => by rw [dlookup_filenames hinit hr]; rfl)
    refine ⟨m, by rw [analyze_cys]; exact hgo, hnd (by simp [dkeys]), ?_⟩
    intro r
    rw [hkeys (cysLabel r)]
    constructor
    · rintro (h | h)
      · simp [dkeys] at h
      · rcases List.mem_map.mp h with ⟨a, ha, hae⟩
        rw [← cysLabel_inj hae]
        exact hperm.mem_iff.mp ha
    · intro h
      exact Or.inr (List.mem_map_of_mem cysLabel (hperm.mem_iff.mpr h))

/-- Witness for C10 at the concrete input `cysteines=[10, 5, 5]`. -/
theorem C10_duplicate_residues_witness :
    pDup.cysteines.count 5 = [10, 5, 5].count 5
    ∧ (dkeys pDup.filenames).Nodup
    ∧ ((5 : Int) ∈ dkeys pDup.filenames ↔ (5 : Int) ∈ [10, 5, 5])
    ∧ ∃ m, analyze_cys pDup = some m
        ∧ (dkeys m).Nodup
        ∧ (∀ r : Int, cysLabel r ∈ dkeys m ↔ r ∈ [10, 5, 5]) := by
  have h := C10_duplicate_residues "r" [10, 5, 5] none pDup rfl
  exact ⟨h.1 5, h.2.1, h.2.2.1 5, h.2.2.2⟩

end CysAccessibility
